import Mathlib

/-!
Verification development for a TUS-style resumable-upload client
(`go-tus-cli/v1/main.go`).  The Go program is shallowly embedded: pure
helpers become Lean functions, the chunk-upload loop becomes a
structurally recursive function over an explicit trace of its effects
(PATCH calls, sleeps, state saves, state clearing), and the outcomes of
network requests are supplied by oracle parameters.  File sizes and
offsets are Go `int64` values that are non-negative and far below 2^63
in every reachable execution, so they are modelled as `Nat`; wall-clock
times (Unix seconds) are modelled as `Int`.
-/

namespace TusClient

/-- Config (main.go:19-26): the validated configuration handed to the
upload engine.  `chunkSize` is in bytes (main.go converts megabytes to
bytes and clamps to [64 KiB, 32 MiB] before `uploadFile` runs). -/
structure Config where
  tusdEndpoint : String
  chunkSize : Nat
  headers : List (String × String)
  reset : Bool
  showOptions : Bool
  filePath : String
  deriving DecidableEq, Repr

/-- UploadState (main.go:28-36): the persisted resume record.  The Go
`Headers` map is modelled as an association list.  `timestamp` is
stamped with the wall clock by `saveState` (main.go:425); the theorems
below never inspect it, so states constructed inside the engine model
carry timestamp 0. -/
structure UploadState where
  url : String
  offset : Nat
  fileSize : Nat
  endpoint : String
  chunkSize : Nat
  headers : List (String × String)
  timestamp : Int
  deriving DecidableEq, Repr

/-- Chunk-size policy constants (main.go:38-42). -/
def MaxChunkSize : Nat := 32 * 1024 * 1024

def MinChunkSize : Nat := 64 * 1024

def DefaultChunkSize : Nat := 2 * 1024 * 1024

/-! ## encodeBase64 (main.go:770-800)

The hand-rolled base64 encoder used for the Upload-Metadata header.
Go indexes the string byte-by-byte; the model works on the code points
of the Lean string, which coincides with the bytes for the ASCII
filenames exercised here. -/

def b64chars : List Char :=
  "ABCDEFGHIJKLMNOPQRSTUVWXYZabcdefghijklmnopqrstuvwxyz0123456789+/".toList

def b64char (n : Nat) : Char := b64chars.getD (n % 64) 'A'

/-- One pass of the encoding loop (main.go:774-797).  The guards
`i+1 < len(s)` and `i+2 < len(s)` are false exactly when the final
group has one, respectively at most two, real bytes. -/
def encodeB64Aux : List Nat → List Char
  | [] => []
  | [b0] =>
    let n := b0 * 65536
    [b64char (n / 262144), b64char (n / 4096), '=', '=']
  | [b0, b1] =>
    let n := b0 * 65536 + b1 * 256
    [b64char (n / 262144), b64char (n / 4096), b64char (n / 64), '=']
  | b0 :: b1 :: b2 :: rest =>
    let n := b0 * 65536 + b1 * 256 + b2
    b64char (n / 262144) :: b64char (n / 4096) :: b64char (n / 64) :: b64char n ::
      encodeB64Aux rest

def encodeBase64 (s : String) : String :=
  String.mk (encodeB64Aux (s.toList.map Char.toNat))

example : encodeBase64 "" = "" := by decide
example : encodeBase64 "f" = "Zg==" := by decide
example : encodeBase64 "fo" = "Zm8=" := by decide
example : encodeBase64 "foo" = "Zm9v" := by decide
example : encodeBase64 "foobar" = "Zm9vYmFy" := by decide
example : encodeBase64 "test file.txt" = "dGVzdCBmaWxlLnR4dA==" := by decide

/-! ## HTTP request headers (createUpload, getUploadOffset, uploadChunk)

`req.Header.Set` replaces any existing value for the key.  Go's
`http.Header` is a map, so only lookup semantics are observable; the
model replaces by prepending the new binding and dropping any previous
binding for the same key. -/

def setHeader (h : List (String × String)) (k v : String) : List (String × String) :=
  (k, v) :: h.filter (fun p => p.1 != k)

def getHeader (h : List (String × String)) (k : String) : Option String :=
  (h.find? (fun p => p.1 == k)).map (fun p => p.2)

/-- The `for key, value := range headers { req.Header.Set(key, value) }`
loop that all three protocol operations run after setting the
protocol-mandated headers (main.go:686-688, 715-717, 753-755). -/
def applyHeaders (h : List (String × String)) (user : List (String × String)) :
    List (String × String) :=
  user.foldl (fun acc p => setHeader acc p.1 p.2) h

/-- Headers of the POST request built by createUpload (main.go:681-688). -/
def createUploadRequestHeaders (fileSize : Nat) (filename : String)
    (user : List (String × String)) : List (String × String) :=
  let h := setHeader [] "Tus-Resumable" "1.0.0"
  let h := setHeader h "Content-Length" "0"
  let h := setHeader h "Upload-Length" (toString fileSize)
  let h := setHeader h "Upload-Metadata" ("name " ++ encodeBase64 filename)
  applyHeaders h user

/-- Headers of the HEAD request built by getUploadOffset (main.go:714-717). -/
def getUploadOffsetRequestHeaders (user : List (String × String)) :
    List (String × String) :=
  applyHeaders (setHeader [] "Tus-Resumable" "1.0.0") user

/-- Headers of the PATCH request built by uploadChunk (main.go:748-755).
`data` is the chunk body; Content-Length is `strconv.Itoa(len(data))`. -/
def uploadChunkRequestHeaders (data : List Nat) (offset : Nat)
    (user : List (String × String)) : List (String × String) :=
  let h := setHeader [] "Tus-Resumable" "1.0.0"
  let h := setHeader h "Content-Type" "application/offset+octet-stream"
  let h := setHeader h "Content-Length" (toString data.length)
  let h := setHeader h "Upload-Offset" (toString offset)
  applyHeaders h user

theorem getHeader_setHeader_same (h : List (String × String)) (k v : String) :
    getHeader (setHeader h k v) k = some v := by
  simp [getHeader, setHeader, List.find?]

theorem getHeader_setHeader_ne (h : List (String × String)) (k k' v : String)
    (hne : k' ≠ k) : getHeader (setHeader h k' v) k = getHeader h k := by
  unfold setHeader getHeader
  rw [List.find?_cons_of_neg _ (by simpa using hne)]
  congr 1
  induction h with
  | nil => rfl
  | cons p t ih =>
    by_cases hp : p.1 = k'
    · have hpk : ¬ p.1 = k := by rw [hp]; exact hne
      rw [List.filter_cons_of_neg (by simpa using hp),
        List.find?_cons_of_neg _ (by simpa using hpk)]
      exact ih
    · rw [List.filter_cons_of_pos (by simpa using hp)]
      by_cases hpk : p.1 = k
      · rw [List.find?_cons_of_pos _ (by simpa using hpk),
          List.find?_cons_of_pos _ (by simpa using hpk)]
      · rw [List.find?_cons_of_neg _ (by simpa using hpk),
          List.find?_cons_of_neg _ (by simpa using hpk)]
        exact ih

theorem getHeader_applyHeaders (user : List (String × String))
    (h : List (String × String)) (k : String)
    (hk : ∀ p ∈ user, p.1 ≠ k) :
    getHeader (applyHeaders h user) k = getHeader h k := by
  induction user generalizing h with
  | nil => rfl
  | cons p t ih =>
    have hp : p.1 ≠ k := hk p (List.mem_cons_self p t)
    have ht : ∀ q ∈ t, q.1 ≠ k := fun q hq => hk q (List.mem_cons_of_mem p hq)
    calc getHeader (applyHeaders (setHeader h p.1 p.2) t) k
        = getHeader (setHeader h p.1 p.2) k := ih (setHeader h p.1 p.2) ht
      _ = getHeader h k := getHeader_setHeader_ne h k p.1 p.2 hp

/-! ## calculateFileHash (main.go:217-252)

The size-tiered fingerprint.  The cryptographic digests come from the
Go standard library (`crypto/md5`, `crypto/sha1`), which is outside
this repository, so they are parameters of the model: `md5Hex s` stands
for `fmt.Sprintf("%x", md5.Sum([]byte(s)))` and `sha1Hex bs` for the
hex rendering of the SHA-1 of the byte sequence `bs`.  The only fact
the theorems use about them is that `%x` renders digests with lowercase
hexadecimal characters only.

The file system is abstracted to the two observations the function
makes: the `os.Stat` result and the readable content (`none` when
opening/reading fails, which makes both `calculateContentSHA1` and
`calculateFileHeaderSHA1` fail). -/

structure GoFileInfo where
  size : Nat
  modTime : Int
  deriving DecidableEq, Repr

structure FileData where
  stat : Option GoFileInfo
  content : Option (List Nat)
  deriving DecidableEq, Repr

/-- The `default:` case of the switch (main.go:246-251): hash of
`"%s|%d|%d"` of path, size and modification time, tagged `meta_`. -/
def metaTier (md5Hex : String → String) (filePath : String) (info : GoFileInfo) :
    String :=
  "meta_" ++ md5Hex (filePath ++ "|" ++ toString info.size ++ "|" ++ toString info.modTime)

/-- The middle case of the switch (main.go:236-244): SHA-1 of the first
1 MiB combined with `"%d_%d"` of size and modification time, hashed
again and tagged `hybrid_`.  When the header read fails Go falls
through to the `default:` body. -/
def hybridTier (md5Hex : String → String) (sha1Hex : List Nat → String)
    (filePath : String) (content : Option (List Nat)) (info : GoFileInfo) : String :=
  match content with
  | some c =>
    "hybrid_" ++ md5Hex (sha1Hex (c.take (1024 * 1024)) ++ "_" ++
      toString info.size ++ "_" ++ toString info.modTime)
  | none => metaTier md5Hex filePath info

/-- calculateFileHash (main.go:217-252).  A failed `os.Stat` short
circuits to the bare path hash; otherwise the switch selects a tier by
file size, falling through to the next tier body when a content read
fails. -/
def calculateFileHash (md5Hex : String → String) (sha1Hex : List Nat → String)
    (filePath : String) (fd : FileData) : String :=
  match fd.stat with
  | none => md5Hex filePath
  | some info =>
    if info.size ≤ 50 * 1024 * 1024 then
      match fd.content with
      | some c => "sha1_" ++ sha1Hex c
      | none => hybridTier md5Hex sha1Hex filePath fd.content info
    else if info.size ≤ 500 * 1024 * 1024 then
      hybridTier md5Hex sha1Hex filePath fd.content info
    else
      metaTier md5Hex filePath info

/-- Classifier for the four fingerprint shapes: the three tagged tiers
are recognized by their tag prefixes, everything else (in particular a
bare hex digest) is the untagged path fallback. -/
def strategyOf (s : String) : String :=
  match s.data with
  | 's' :: 'h' :: 'a' :: '1' :: '_' :: _ => "full"
  | 'h' :: 'y' :: 'b' :: 'r' :: 'i' :: 'd' :: '_' :: _ => "hybrid"
  | 'm' :: 'e' :: 't' :: 'a' :: '_' :: _ => "meta"
  | _ => "path"

def hexChars : List Char := "0123456789abcdef".toList

/-- `%x` output: every character is a lowercase hex digit. -/
def CharsHex (s : String) : Prop := ∀ c ∈ s.data, c ∈ hexChars

/-! Concrete stand-in digests, used by witnesses.  They are toy
functions; the theorems only require their outputs to be hex strings,
which holds by construction. -/

def hexDigitChar (n : Nat) : Char := hexChars.getD (n % 16) '0'

def natToHex : Nat → Nat → List Char
  | 0, _ => []
  | len + 1, n => hexDigitChar (n % 16) :: natToHex len (n / 16)

def md5HexModel (s : String) : String :=
  String.mk (natToHex 32 (s.data.foldl (fun a c => a * 257 + c.toNat + 1) 7))

def sha1HexModel (bs : List Nat) : String :=
  String.mk (natToHex 40 (bs.foldl (fun a b => a * 131 + b + 1) 11))

theorem natToHex_hex (len n : Nat) : ∀ c ∈ natToHex len n, c ∈ hexChars := by
  induction len generalizing n with
  | zero => intro c hc; simp [natToHex] at hc
  | succ m ih =>
    intro c hc
    rw [natToHex] at hc
    rcases List.mem_cons.mp hc with h | h
    · subst h
      have : n % 16 < 16 := Nat.mod_lt _ (by norm_num)
      unfold hexDigitChar
      interval_cases h : n % 16 <;> decide
    · exact ih (n / 16) c h

theorem md5HexModel_hex (s : String) : CharsHex (md5HexModel s) :=
  fun c hc => natToHex_hex 32 _ c hc

theorem sha1HexModel_hex (bs : List Nat) : CharsHex (sha1HexModel bs) :=
  fun c hc => natToHex_hex 40 _ c hc

theorem strategyOf_full (x : String) : strategyOf ("sha1_" ++ x) = "full" := by
  unfold strategyOf
  rw [String.data_append]
  rfl

theorem strategyOf_hybrid (x : String) : strategyOf ("hybrid_" ++ x) = "hybrid" := by
  unfold strategyOf
  rw [String.data_append]
  rfl

theorem strategyOf_meta (x : String) : strategyOf ("meta_" ++ x) = "meta" := by
  unfold strategyOf
  rw [String.data_append]
  rfl

theorem strategyOf_hexOnly (s : String) (hs : CharsHex s) : strategyOf s = "path" := by
  unfold strategyOf
  split
  · rename_i heq
    exact absurd (hs 's' (by rw [heq]; simp)) (by decide)
  · rename_i heq
    exact absurd (hs 'h' (by rw [heq]; simp)) (by decide)
  · rename_i heq
    exact absurd (hs 'm' (by rw [heq]; simp)) (by decide)
  · rfl

/-! ## State files: getStateFile, clearState (main.go:210-215, 435-464)

The working directory is modelled as a list of stored files, each with
a name and an `os.Stat` modification time (Unix seconds).  Glob
patterns of the shape `.tusc_state_<hash>_*.json` are modelled by a
prefix/suffix test. -/

structure StoredFile where
  name : String
  modTime : Int
  deriving DecidableEq, Repr

/-- getStateFile (main.go:210-215): the process-owned record name. -/
def getStateFile (hash : String) (pid : Int) : String :=
  ".tusc_state_" ++ hash ++ "_" ++ toString pid ++ ".json"

/-- Whether a name matches the glob `.tusc_state_<hash>_*.json`. -/
def stateMatches (hash : String) (name : String) : Bool :=
  (".tusc_state_" ++ hash ++ "_").data.isPrefixOf name.data &&
    ".json".data.isSuffixOf name.data

/-- clearState (main.go:435-464): remove the caller's own record, then
remove every record matching the fingerprint pattern or the legacy
path-hash pattern whose modification time is more than one hour old.
Go performs the removals by iterating the two globs; the net effect on
the directory is this filter. -/
def clearState (dir : List StoredFile) (ownName baseHash legacyHash : String)
    (now : Int) : List StoredFile :=
  let afterOwn := dir.filter (fun f => f.name != ownName)
  afterOwn.filter (fun f =>
    !((stateMatches baseHash f.name || stateMatches legacyHash f.name) &&
      decide (now - f.modTime > 3600)))

/-! ## isProcessRunning, checkConcurrentUploads (main.go:360-421) -/

/-- isProcessRunning (main.go:411-421).  `os.FindProcess` always
succeeds on Unix.  The call then invokes `process.Signal(os.Signal(nil))`:
inside `Process.Signal` the signal interface value is converted to the
platform signal type, and the conversion of a nil interface fails, so
`Signal` returns an error (`os: unsupported signal type`) no matter
whether the process with this pid exists.  The ground-truth liveness
`alive` is therefore never consulted; it is kept as a parameter so that
theorems can speak about processes that really are alive. -/
def isProcessRunning (alive : Int → Bool) (pid : Int) : Bool :=
  let signalResult : Option Unit := none
  match signalResult with
  | some _ => alive pid
  | none => false

/-- strings.TrimSuffix: drop the suffix if present, else unchanged. -/
def trimSuffix (s suffix : String) : String :=
  if suffix.data.isSuffixOf s.data then
    String.mk (s.data.take (s.data.length - suffix.data.length))
  else s

def digitsToNat (l : List Char) : Nat :=
  l.foldl (fun a c => a * 10 + (c.toNat - 48)) 0

/-- strconv.Atoi: an optional sign followed by at least one digit
(overflow is not modelled; pid strings are far below the int range). -/
def goAtoi (s : String) : Option Int :=
  match s.data with
  | [] => none
  | '-' :: rest =>
    if rest ≠ [] ∧ rest.all Char.isDigit then some (-(digitsToNat rest : Int)) else none
  | '+' :: rest =>
    if rest ≠ [] ∧ rest.all Char.isDigit then some (digitsToNat rest : Int) else none
  | l => if l.all Char.isDigit then some (digitsToNat l : Int) else none

/-- strings.Split on a single-character separator, over code points. -/
def splitOnChar (sep : Char) : List Char → List (List Char)
  | [] => [[]]
  | c :: rest =>
    let r := splitOnChar sep rest
    if c = sep then [] :: r
    else (c :: r.headD []) :: r.tail

/-- Pid extraction from a state-file name (main.go:374-383):
split on `_`, require at least three parts, trim `.json` from the last
part and parse it as an integer. -/
def extractPid (name : String) : Option Int :=
  let parts := (splitOnChar '_' name.data).map String.mk
  if parts.length < 3 then none
  else goAtoi (trimSuffix (parts.getLastD "") ".json")

example : extractPid ".tusc_state_abc_123.json" = some 123 := by decide
example : extractPid "nounderscores.json" = none := by decide

/-- One step of the glob walk inside checkConcurrentUploads
(main.go:373-402), acting on the accumulated (remaining records,
activeUploads) pair. -/
def checkStep (legacyHash : String) (alive : Int → Bool) (currentPid : Int)
    (now : Int) (acc : List StoredFile × Nat) (f : StoredFile) :
    List StoredFile × Nat :=
  if stateMatches legacyHash f.name then
    match extractPid f.name with
    | none => (acc.1 ++ [f], acc.2)
    | some pid =>
      if pid = currentPid then (acc.1 ++ [f], acc.2)
      else if now - f.modTime < 300 then
        if isProcessRunning alive pid then (acc.1 ++ [f], acc.2 + 1)
        else (acc.1, acc.2)
      else (acc.1 ++ [f], acc.2)
  else (acc.1 ++ [f], acc.2)

/-- checkConcurrentUploads (main.go:360-409): walk the records matching
the legacy path-hash glob; for each record of another process that was
modified within the last five minutes, count it as active when the
liveness probe reports the owner running, otherwise delete it.  Records
outside the five-minute window, with unparseable pids, or matching the
self pid are left alone.  Returns the resulting directory and the
`activeUploads` count; the Go function returns an error (printed by the
caller as a warning) exactly when the count is nonzero. -/
def checkConcurrentUploads (legacyHash : String) (alive : Int → Bool)
    (dir : List StoredFile) (currentPid : Int) (now : Int) :
    List StoredFile × Nat :=
  dir.foldl (checkStep legacyHash alive currentPid now) ([], 0)

/-- The advisory warning produced by uploadFile (main.go:514-517): the
check's error is printed and the upload proceeds regardless. -/
def concurrentWarning (activeCount : Nat) : Option String :=
  if activeCount > 0 then some "detected other active upload(s) for this file" else none

/-! ## uploadFileInChunks (main.go:561-673)

The transfer loop.  The outcome of each PATCH request is supplied by
the oracle `patchOk offset retry` (attempt number `retry` for the chunk
starting at `offset`).  The loop's observable effects are collected in
a `ChunkTrace`: the PATCH calls actually issued (offset and body), the
backoff sleeps in seconds, the `saveState` calls, and whether
`clearState` ran.  Reading the source file at `offset` is
`(content.drop offset).take readSize`, matching `file.ReadAt` on a
regular file (short reads happen only at end of file, where `ReadAt`
reports `io.EOF`, which the loop tolerates). -/

def maxRetries : Nat := 5

/-- One backoff delay in seconds (main.go:601-604):
`1 << retry` seconds capped at 30 seconds. -/
def backoffSeconds (retry : Nat) : Nat := min (2 ^ retry) 30

/-- The retry loop around uploadChunk (main.go:590-606), recursing on
the remaining attempt budget.  Returns whether some attempt succeeded,
how many attempts were issued, and the sleeps performed (the code
sleeps after every failed attempt, including the last one). -/
def runRetries (ok : Nat → Bool) : Nat → Nat → Bool × Nat × List Nat
  | _, 0 => (false, 0, [])
  | retry, fuel + 1 =>
    if ok retry then (true, 1, [])
    else
      let r := runRetries ok (retry + 1) fuel
      (r.1, r.2.1 + 1, backoffSeconds retry :: r.2.2)

/-- The UploadState value the loop constructs for saveState calls
(main.go:609-616 and 653-660).  saveState stamps the wall clock into
`timestamp`; the stamp is not modelled (0). -/
def mkUploadState (url : String) (offset fileSize : Nat) (cfg : Config) : UploadState :=
  { url := url, offset := offset, fileSize := fileSize,
    endpoint := cfg.tusdEndpoint, chunkSize := cfg.chunkSize,
    headers := cfg.headers, timestamp := 0 }

structure ChunkTrace where
  err : Option String
  finalOffset : Nat
  patches : List (Nat × List Nat)
  sleeps : List Nat
  saves : List UploadState
  cleared : Bool
  deriving DecidableEq, Repr

/-- The checkpoint cadence (main.go:641-649): the larger of 10 MiB and
5% of the file, raised to at least two chunks. -/
def saveIntervalFor (cfg : Config) (fileSize : Nat) : Nat :=
  let saveInterval0 : Nat := 10 * 1024 * 1024
  let percentInterval := fileSize / 20
  let si1 := if saveInterval0 < percentInterval then percentInterval else saveInterval0
  if si1 < cfg.chunkSize * 2 then cfg.chunkSize * 2 else si1

/-- The body of the `for offset < fileSize` loop, recursing on an
attempt budget (`fuel`).  The loop strictly increases `offset` each
iteration, so `fileSize - startOffset` iterations always suffice; the
out-of-fuel case is unreachable for the fuel the wrapper supplies. -/
def chunkLoop (content : List Nat) (cfg : Config) (uploadURL : String)
    (patchOk : Nat → Nat → Bool) (startOffset fileSize : Nat) :
    Nat → Nat → ChunkTrace
  | 0, offset =>
    if offset < fileSize then ⟨some "out of fuel", offset, [], [], [], false⟩
    else ⟨none, offset, [], [], [], true⟩
  | fuel + 1, offset =>
    if offset < fileSize then
      let readSize := min cfg.chunkSize (fileSize - offset)
      let data := (content.drop offset).take readSize
      let n := data.length
      if n = 0 then
        -- break out of the loop; the epilogue clears state, reports
        -- success and returns nil (main.go:586-588, 667-672)
        ⟨none, offset, [], [], [], true⟩
      else
        let r := runRetries (patchOk offset) 0 maxRetries
        if r.1 then
          let offset2 := offset + n
          let periodic :=
            if (offset2 - startOffset) % saveIntervalFor cfg fileSize < cfg.chunkSize ∧
                startOffset < offset2
            then [mkUploadState uploadURL offset2 fileSize cfg] else []
          let rest := chunkLoop content cfg uploadURL patchOk startOffset fileSize fuel offset2
          ⟨rest.err, rest.finalOffset,
            List.replicate r.2.1 (offset, data) ++ rest.patches,
            r.2.2 ++ rest.sleeps, periodic ++ rest.saves, rest.cleared⟩
        else
          -- retries exhausted: persist a checkpoint at the failed
          -- chunk's offset and return the error (main.go:608-620)
          ⟨some "failed to upload chunk", offset,
            List.replicate r.2.1 (offset, data), r.2.2,
            [mkUploadState uploadURL offset fileSize cfg], false⟩
    else
      ⟨none, offset, [], [], [], true⟩

/-- uploadFileInChunks (main.go:561-673), with enough fuel for the
whole transfer. -/
def uploadFileInChunks (content : List Nat) (cfg : Config) (uploadURL : String)
    (patchOk : Nat → Nat → Bool) (startOffset fileSize : Nat) : ChunkTrace :=
  chunkLoop content cfg uploadURL patchOk startOffset fileSize
    (fileSize - startOffset) startOffset

/-- Replay of the PATCH calls on a TUS server (the semantics of the
wire protocol, mirrored by the repository's mock server): a PATCH is
accepted, and advances the server's durable offset by the body length,
exactly when its Upload-Offset header equals the server's current
offset. -/
def serverReplay (serverOffset : Nat) (patches : List (Nat × List Nat)) : Nat :=
  patches.foldl (fun acc p => if p.1 = acc then acc + p.2.length else acc) serverOffset

/-- Ceiling division, the number of chunks needed for `a` bytes in
groups of `b`. -/
def ceilDiv (a b : Nat) : Nat := (a + b - 1) / b

/-! ## uploadFile (main.go:487-559): resume-or-create decision

The network and state-store observations are oracle parameters:
`loaded` is the `loadState` result (`none` when it failed), `query url`
the `getUploadOffset` result against `url` (`none` on any error), and
`createResult` the `createUpload` result.  The returned plan is the
upload URL and start offset handed to `uploadFileInChunks`, together
with the initial state saved for a freshly created upload. -/

structure UploadPlan where
  url : String
  offset : Nat
  savedStates : List UploadState
  deriving DecidableEq, Repr

def uploadFilePlan (cfg : Config) (fileSize : Nat)
    (loaded : Option UploadState)
    (query : String → Option Nat)
    (createResult : Option String) : Except String UploadPlan :=
  let resumed : String × Nat :=
    match loaded with
    | some state =>
      if state.fileSize = fileSize ∧ state.endpoint = cfg.tusdEndpoint then
        match query state.url with
        | none => ("", 0)
        | some currentOffset => (state.url, currentOffset)
      else ("", 0)
    | none => ("", 0)
  if resumed.1 = "" then
    match createResult with
    | none => Except.error "failed to create upload"
    | some newURL =>
      Except.ok ⟨newURL, 0, [mkUploadState newURL 0 fileSize cfg]⟩
  else
    Except.ok ⟨resumed.1, resumed.2, []⟩

/-! ## Helper lemmas -/

theorem ceilDiv_of_le {a b : Nat} (h1 : 0 < a) (h2 : a ≤ b) : ceilDiv a b = 1 := by
  unfold ceilDiv
  have hb : 0 < b := lt_of_lt_of_le h1 h2
  exact Nat.div_eq_of_lt_le (by omega) (by omega)

theorem ceilDiv_of_gt {a b : Nat} (h1 : 0 < b) (h2 : b < a) :
    ceilDiv a b = ceilDiv (a - b) b + 1 := by
  unfold ceilDiv
  have : a + b - 1 = (a - b + b - 1) + b := by omega
  rw [this, Nat.add_div_right _ h1]

theorem runRetries_firstOk {ok : Nat → Bool} (h : ok 0 = true) :
    runRetries ok 0 maxRetries = (true, 1, []) := by
  simp [maxRetries, runRetries, h]

theorem runRetries_allFail {ok : Nat → Bool} (h : ∀ i, i < 5 → ok i = false) :
    runRetries ok 0 maxRetries = (false, 5, [1, 2, 4, 8, 16]) := by
  simp [maxRetries, runRetries, h 0 (by norm_num), h 1 (by norm_num),
    h 2 (by norm_num), h 3 (by norm_num), h 4 (by norm_num), backoffSeconds]

section ChunkLoopLemmas

variable (content : List Nat) (cfg : Config) (url : String)
variable (patchOk : Nat → Nat → Bool) (startOffset fileSize : Nat)

theorem chunkLoop_exit (offset : Nat) (h : ¬ offset < fileSize) :
    ∀ fuel, chunkLoop content cfg url patchOk startOffset fileSize fuel offset =
      ⟨none, offset, [], [], [], true⟩ := by
  intro fuel
  cases fuel with
  | zero => simp [chunkLoop, h]
  | succ m => simp [chunkLoop, h]

theorem chunkLoop_step_ok (fuel offset : Nat) (h : offset < fileSize)
    (hok0 : patchOk offset 0 = true)
    (hn : ((content.drop offset).take (min cfg.chunkSize (fileSize - offset))).length ≠ 0) :
    chunkLoop content cfg url patchOk startOffset fileSize (fuel + 1) offset =
      (let data := (content.drop offset).take (min cfg.chunkSize (fileSize - offset))
      let offset2 := offset + data.length
      let rest := chunkLoop content cfg url patchOk startOffset fileSize fuel offset2
      let periodic :=
        if (offset2 - startOffset) % saveIntervalFor cfg fileSize < cfg.chunkSize ∧
            startOffset < offset2
        then [mkUploadState url offset2 fileSize cfg] else []
      ⟨rest.err, rest.finalOffset, (offset, data) :: rest.patches,
        rest.sleeps, periodic ++ rest.saves, rest.cleared⟩) := by
  simp only [chunkLoop, if_pos h, hn, if_neg, runRetries_firstOk hok0,
    List.replicate, List.singleton_append, List.nil_append]
  simp

theorem chunkLoop_step_run (fuel offset : Nat) (h : offset < fileSize)
    (hn : ((content.drop offset).take (min cfg.chunkSize (fileSize - offset))).length ≠ 0) :
    chunkLoop content cfg url patchOk startOffset fileSize (fuel + 1) offset =
      (let data := (content.drop offset).take (min cfg.chunkSize (fileSize - offset))
      let r := runRetries (patchOk offset) 0 maxRetries
      if r.1 = true then
        let offset2 := offset + data.length
        let rest := chunkLoop content cfg url patchOk startOffset fileSize fuel offset2
        let periodic :=
          if (offset2 - startOffset) % saveIntervalFor cfg fileSize < cfg.chunkSize ∧
              startOffset < offset2
          then [mkUploadState url offset2 fileSize cfg] else []
        ⟨rest.err, rest.finalOffset, List.replicate r.2.1 (offset, data) ++ rest.patches,
          r.2.2 ++ rest.sleeps, periodic ++ rest.saves, rest.cleared⟩
      else
        ⟨some "failed to upload chunk", offset, List.replicate r.2.1 (offset, data),
          r.2.2, [mkUploadState url offset fileSize cfg], false⟩) := by
  simp only [chunkLoop, if_pos h, hn, if_neg]
  simp

theorem chunkLoop_step_fail (fuel offset : Nat) (h : offset < fileSize)
    (hfail : ∀ i, i < 5 → patchOk offset i = false)
    (hn : ((content.drop offset).take (min cfg.chunkSize (fileSize - offset))).length ≠ 0) :
    chunkLoop content cfg url patchOk startOffset fileSize (fuel + 1) offset =
      ⟨some "failed to upload chunk", offset,
        List.replicate 5 (offset, (content.drop offset).take (min cfg.chunkSize (fileSize - offset))),
        [1, 2, 4, 8, 16], [mkUploadState url offset fileSize cfg], false⟩ := by
  simp only [chunkLoop, if_pos h, hn, if_neg, runRetries_allFail hfail]
  simp

end ChunkLoopLemmas

theorem serverReplay_cons (o : Nat) (p : Nat × List Nat) (ps : List (Nat × List Nat)) :
    serverReplay o (p :: ps) = serverReplay (if p.1 = o then o + p.2.length else o) ps := by
  simp [serverReplay]

/-- Master description of an all-first-attempt-success run: starting
from any `offset`, the loop issues one PATCH per remaining chunk, in
order, with the exact bytes of the source file, sleeps never, finishes
at `fileSize`, clears the state and returns success, and a protocol
server replaying the PATCH stream ends with offset `fileSize`. -/
theorem chunkLoop_allFirstOk (content : List Nat) (cfg : Config) (url : String)
    (patchOk : Nat → Nat → Bool) (startOffset fileSize : Nat)
    (hC : 1 ≤ cfg.chunkSize) (hlen : content.length = fileSize)
    (hok : ∀ o, patchOk o 0 = true) :
    ∀ fuel offset, offset ≤ fileSize → fileSize - offset ≤ fuel →
      (chunkLoop content cfg url patchOk startOffset fileSize fuel offset).err = none ∧
      (chunkLoop content cfg url patchOk startOffset fileSize fuel offset).finalOffset = fileSize ∧
      (chunkLoop content cfg url patchOk startOffset fileSize fuel offset).cleared = true ∧
      (chunkLoop content cfg url patchOk startOffset fileSize fuel offset).sleeps = [] ∧
      (chunkLoop content cfg url patchOk startOffset fileSize fuel offset).patches =
        (List.range (ceilDiv (fileSize - offset) cfg.chunkSize)).map
          (fun i => (offset + i * cfg.chunkSize,
            (content.drop (offset + i * cfg.chunkSize)).take
              (min cfg.chunkSize (fileSize - (offset + i * cfg.chunkSize))))) ∧
      serverReplay offset
        (chunkLoop content cfg url patchOk startOffset fileSize fuel offset).patches = fileSize := by
  have exitCase : ∀ fuel,
      (chunkLoop content cfg url patchOk startOffset fileSize fuel fileSize).err = none ∧
      (chunkLoop content cfg url patchOk startOffset fileSize fuel fileSize).finalOffset = fileSize ∧
      (chunkLoop content cfg url patchOk startOffset fileSize fuel fileSize).cleared = true ∧
      (chunkLoop content cfg url patchOk startOffset fileSize fuel fileSize).sleeps = [] ∧
      (chunkLoop content cfg url patchOk startOffset fileSize fuel fileSize).patches =
        (List.range (ceilDiv (fileSize - fileSize) cfg.chunkSize)).map
          (fun i => (fileSize + i * cfg.chunkSize,
            (content.drop (fileSize + i * cfg.chunkSize)).take
              (min cfg.chunkSize (fileSize - (fileSize + i * cfg.chunkSize))))) ∧
      serverReplay fileSize
        (chunkLoop content cfg url patchOk startOffset fileSize fuel fileSize).patches = fileSize := by
    intro fuel
    rw [chunkLoop_exit content cfg url patchOk startOffset fileSize fileSize (by omega) fuel]
    have hk : ceilDiv (fileSize - fileSize) cfg.chunkSize = 0 := by
      unfold ceilDiv
      rw [Nat.sub_self]
      exact Nat.div_eq_of_lt (by omega)
    rw [hk]
    exact ⟨rfl, rfl, rfl, rfl, rfl, rfl⟩
  intro fuel
  induction fuel with
  | zero =>
    intro offset h1 h2
    have heq : offset = fileSize := by omega
    subst heq
    exact exitCase 0
  | succ fuel ih =>
    intro offset h1 h2
    by_cases h : offset < fileSize
    · have hm : ((content.drop offset).take (min cfg.chunkSize (fileSize - offset))).length
          = min cfg.chunkSize (fileSize - offset) := by
        rw [List.length_take, List.length_drop, hlen]
        omega
      have hmpos : 0 < min cfg.chunkSize (fileSize - offset) := by omega
      rw [chunkLoop_step_ok content cfg url patchOk startOffset fileSize fuel offset h
        (hok offset) (by omega)]
      simp only [hm]
      have hIH := ih (offset + min cfg.chunkSize (fileSize - offset)) (by omega) (by omega)
      obtain ⟨e1, e2, e3, e4, e5, e6⟩ := hIH
      refine ⟨e1, e2, e3, e4, ?_, ?_⟩
      · rw [e5]
        by_cases hcase : fileSize - offset ≤ cfg.chunkSize
        · have hmin : min cfg.chunkSize (fileSize - offset) = fileSize - offset := by omega
          rw [hmin]
          have hoff2 : offset + (fileSize - offset) = fileSize := by omega
          rw [hoff2]
          have hk0 : ceilDiv (fileSize - fileSize) cfg.chunkSize = 0 := by
            unfold ceilDiv
            rw [Nat.sub_self]
            exact Nat.div_eq_of_lt (by omega)
          have hk1 : ceilDiv (fileSize - offset) cfg.chunkSize = 1 :=
            ceilDiv_of_le (by omega) hcase
          rw [hk0, hk1]
          simp only [List.range_succ, List.range_zero, List.map_nil, List.nil_append,
            List.map_cons, List.map_append, zero_mul, add_zero, hmin]
        · have hmin : min cfg.chunkSize (fileSize - offset) = cfg.chunkSize := by omega
          rw [hmin]
          have hk1 : ceilDiv (fileSize - offset) cfg.chunkSize
              = ceilDiv (fileSize - offset - cfg.chunkSize) cfg.chunkSize + 1 :=
            ceilDiv_of_gt (by omega) (by omega)
          have hsub : fileSize - (offset + cfg.chunkSize)
              = fileSize - offset - cfg.chunkSize := by omega
          rw [hsub, hk1, List.range_succ_eq_map, List.map_cons, List.map_map]
          congr 1
          · simp [hmin]
          · apply List.map_congr_left
            intro i _
            simp only [Function.comp_apply, Nat.succ_eq_add_one]
            have hidx : offset + (i + 1) * cfg.chunkSize
                = offset + cfg.chunkSize + i * cfg.chunkSize := by ring
            rw [hidx]
      · rw [serverReplay_cons]
        simp only [if_pos rfl, hm]
        exact e6
    · have heq : offset = fileSize := by omega
      subst heq
      exact exitCase (fuel + 1)

/-- A nil return from the loop implies the offset reached `fileSize`:
the only success exits are the loop condition turning false and the
`n == 0` break, and the break is unreachable while `offset < fileSize`
when the file really has `fileSize` bytes and the chunk size is
positive. -/
theorem chunkLoop_err_none (content : List Nat) (cfg : Config) (url : String)
    (patchOk : Nat → Nat → Bool) (startOffset fileSize : Nat)
    (hC : 1 ≤ cfg.chunkSize) (hlen : content.length = fileSize) :
    ∀ fuel offset, offset ≤ fileSize → fileSize - offset ≤ fuel →
      (chunkLoop content cfg url patchOk startOffset fileSize fuel offset).err = none →
      (chunkLoop content cfg url patchOk startOffset fileSize fuel offset).finalOffset
        = fileSize := by
  intro fuel
  induction fuel with
  | zero =>
    intro offset h1 h2 _
    have heq : offset = fileSize := by omega
    rw [heq, chunkLoop_exit content cfg url patchOk startOffset fileSize fileSize (by omega)]
  | succ fuel ih =>
    intro offset h1 h2
    by_cases h : offset < fileSize
    · have hm : ((content.drop offset).take (min cfg.chunkSize (fileSize - offset))).length
          = min cfg.chunkSize (fileSize - offset) := by
        rw [List.length_take, List.length_drop, hlen]
        omega
      by_cases hr : (runRetries (patchOk offset) 0 maxRetries).1 = true
      · have step := chunkLoop_step_run content cfg url patchOk startOffset fileSize fuel offset
          h (by omega)
        rw [step, if_pos hr]
        simp only [hm]
        exact ih (offset + min cfg.chunkSize (fileSize - offset)) (by omega) (by omega)
      · have step := chunkLoop_step_run content cfg url patchOk startOffset fileSize fuel offset
          h (by omega)
        rw [step, if_neg hr]
        intro habs
        simp at habs
    · have heq : offset = fileSize := by omega
      intro _
      rw [heq, chunkLoop_exit content cfg url patchOk startOffset fileSize fileSize (by omega)]

/-- Run behaviour when every chunk before byte offset `B` succeeds on
its first attempt and the chunk at `B` fails all five attempts: the
loop stops at `B`, its last saveState call checkpoints `B`, it does not
clear the state, and it returns the single chunk-upload error. -/
theorem chunkLoop_failAt (content : List Nat) (cfg : Config) (url : String)
    (patchOk : Nat → Nat → Bool) (startOffset fileSize B : Nat)
    (hC : 1 ≤ cfg.chunkSize) (hlen : content.length = fileSize)
    (hB : B < fileSize)
    (hok : ∀ o, o < B → patchOk o 0 = true)
    (hfail : ∀ i, i < 5 → patchOk B i = false) :
    ∀ fuel offset, offset ≤ B → cfg.chunkSize ∣ (B - offset) → fileSize - offset ≤ fuel →
      (chunkLoop content cfg url patchOk startOffset fileSize fuel offset).err
        = some "failed to upload chunk" ∧
      (chunkLoop content cfg url patchOk startOffset fileSize fuel offset).finalOffset = B ∧
      (chunkLoop content cfg url patchOk startOffset fileSize fuel offset).saves.getLast?
        = some (mkUploadState url B fileSize cfg) ∧
      (chunkLoop content cfg url patchOk startOffset fileSize fuel offset).cleared = false := by
  intro fuel
  induction fuel with
  | zero =>
    intro offset h1 _ h3
    omega
  | succ fuel ih =>
    intro offset h1 hdvd h3
    have h : offset < fileSize := by omega
    have hm : ((content.drop offset).take (min cfg.chunkSize (fileSize - offset))).length
        = min cfg.chunkSize (fileSize - offset) := by
      rw [List.length_take, List.length_drop, hlen]
      omega
    by_cases hoB : offset = B
    · subst hoB
      rw [chunkLoop_step_fail content cfg url patchOk startOffset fileSize fuel offset h
        hfail (by omega)]
      exact ⟨rfl, rfl, rfl, rfl⟩
    · have hlt : offset < B := by omega
      have hge : cfg.chunkSize ≤ B - offset := by
        rcases hdvd with ⟨k, hk⟩
        match k, hk with
        | 0, hk => simp at hk; omega
        | k + 1, hk =>
          have hmul : cfg.chunkSize ≤ cfg.chunkSize * (k + 1) := by
            simpa using Nat.mul_le_mul_left cfg.chunkSize
              (Nat.succ_le_succ (Nat.zero_le k))
          omega
      have hmin : min cfg.chunkSize (fileSize - offset) = cfg.chunkSize := by omega
      have hlen2 : (List.take cfg.chunkSize (List.drop offset content)).length
          = cfg.chunkSize := by
        rw [List.length_take, List.length_drop, hlen]
        omega
      rw [chunkLoop_step_ok content cfg url patchOk startOffset fileSize fuel offset h
        (hok offset hlt) (by omega)]
      simp only [hmin, hlen2]
      have hIH := ih (offset + cfg.chunkSize) (by omega)
        (by
          have : B - (offset + cfg.chunkSize) = B - offset - cfg.chunkSize := by omega
          rw [this]
          exact Nat.dvd_sub (by omega) hdvd (Nat.dvd_refl _))
        (by omega)
      obtain ⟨e1, e2, e3, e4⟩ := hIH
      have hne : (chunkLoop content cfg url patchOk startOffset fileSize fuel
          (offset + cfg.chunkSize)).saves ≠ [] := by
        intro habs
        rw [habs] at e3
        simp at e3
      refine ⟨e1, e2, ?_, e4⟩
      rw [List.getLast?_append_of_ne_nil _ hne]
      exact e3

/-- Observable specification of clearState: the caller-owned record is
gone, nothing outside the original directory appears, records matching
either pattern and older than one hour are gone, and every other record
survives. -/
theorem clearState_spec (dir : List StoredFile) (ownName baseHash legacyHash : String)
    (now : Int) :
    (∀ f ∈ clearState dir ownName baseHash legacyHash now,
      f ∈ dir ∧ f.name ≠ ownName ∧
        ¬((stateMatches baseHash f.name || stateMatches legacyHash f.name) = true ∧
          now - f.modTime > 3600)) ∧
    (∀ f ∈ dir, f.name ≠ ownName →
      ¬((stateMatches baseHash f.name || stateMatches legacyHash f.name) = true ∧
        now - f.modTime > 3600) →
      f ∈ clearState dir ownName baseHash legacyHash now) := by
  constructor
  · intro f hf
    unfold clearState at hf
    simp only [List.mem_filter, bne_iff_ne, Bool.not_eq_true] at hf
    obtain ⟨⟨hmem, hne⟩, hold⟩ := hf
    refine ⟨hmem, hne, ?_⟩
    intro ⟨hmatch, htime⟩
    rw [hmatch] at hold
    simp [htime] at hold
  · intro f hmem hne hold
    unfold clearState
    simp only [List.mem_filter, bne_iff_ne, Bool.not_eq_true]
    refine ⟨⟨hmem, hne⟩, ?_⟩
    by_cases hmatch : (stateMatches baseHash f.name || stateMatches legacyHash f.name) = true
    · have : ¬ now - f.modTime > 3600 := fun ht => hold ⟨hmatch, ht⟩
      simp [hmatch, this]
    · simp only [Bool.not_eq_true] at hmatch
      simp [hmatch]

theorem isProcessRunning_false (alive : Int → Bool) (pid : Int) :
    isProcessRunning alive pid = false := rfl

/-- The record-keeping predicate actually implemented by
checkConcurrentUploads, given that the liveness probe always reports
false: a record is kept unless it matches the glob, carries a parseable
pid different from the current process, and was modified within the
last five minutes. -/
def keptByCheck (legacyHash : String) (currentPid : Int) (now : Int)
    (f : StoredFile) : Bool :=
  if stateMatches legacyHash f.name then
    match extractPid f.name with
    | none => true
    | some pid =>
      if pid = currentPid then true
      else if now - f.modTime < 300 then false
      else true
  else true

theorem checkConcurrentUploads_eq (legacyHash : String) (alive : Int → Bool)
    (dir : List StoredFile) (currentPid : Int) (now : Int) :
    checkConcurrentUploads legacyHash alive dir currentPid now
      = (dir.filter (keptByCheck legacyHash currentPid now), 0) := by
  unfold checkConcurrentUploads
  suffices hgen : ∀ (l : List StoredFile) (acc : List StoredFile),
      l.foldl (checkStep legacyHash alive currentPid now) (acc, 0)
      = (acc ++ l.filter (keptByCheck legacyHash currentPid now), 0) by
    simpa using hgen dir []
  intro l
  induction l with
  | nil => intro acc; simp
  | cons f t ih =>
    intro acc
    simp only [List.foldl_cons]
    by_cases h1 : stateMatches legacyHash f.name
    · cases hpid : extractPid f.name with
      | none =>
        have hkeep : keptByCheck legacyHash currentPid now f = true := by
          unfold keptByCheck
          rw [if_pos h1, hpid]
        have hstep : checkStep legacyHash alive currentPid now (acc, 0) f
            = (acc ++ [f], 0) := by
          unfold checkStep
          rw [if_pos h1, hpid]
        rw [List.filter_cons_of_pos hkeep, hstep]
        simpa using ih (acc ++ [f])
      | some pid =>
        by_cases h2 : pid = currentPid
        · have hkeep : keptByCheck legacyHash currentPid now f = true := by
            unfold keptByCheck
            rw [if_pos h1, hpid]
            simp [h2]
          have hstep : checkStep legacyHash alive currentPid now (acc, 0) f
              = (acc ++ [f], 0) := by
            unfold checkStep
            rw [if_pos h1, hpid]
            simp [h2]
          rw [List.filter_cons_of_pos hkeep, hstep]
          simpa using ih (acc ++ [f])
        · by_cases h3 : now - f.modTime < 300
          · have hkeep : keptByCheck legacyHash currentPid now f = false := by
              unfold keptByCheck
              rw [if_pos h1, hpid]
              simp [h2, h3]
            have hstep : checkStep legacyHash alive currentPid now (acc, 0) f
                = (acc, 0) := by
              unfold checkStep
              rw [if_pos h1, hpid]
              simp [h2, h3, isProcessRunning]
            rw [List.filter_cons_of_neg (by simp [hkeep]), hstep]
            exact ih acc
          · have hkeep : keptByCheck legacyHash currentPid now f = true := by
              unfold keptByCheck
              rw [if_pos h1, hpid]
              simp [h2, h3]
            have hstep : checkStep legacyHash alive currentPid now (acc, 0) f
                = (acc ++ [f], 0) := by
              unfold checkStep
              rw [if_pos h1, hpid]
              simp [h2, h3]
            rw [List.filter_cons_of_pos hkeep, hstep]
            simpa using ih (acc ++ [f])
    · have hkeep : keptByCheck legacyHash currentPid now f = true := by
        unfold keptByCheck
        rw [if_neg h1]
      have hstep : checkStep legacyHash alive currentPid now (acc, 0) f
          = (acc ++ [f], 0) := by
        unfold checkStep
        rw [if_neg h1]
      rw [List.filter_cons_of_pos hkeep, hstep]
      simpa using ih (acc ++ [f])

/-! ## Claim theorems -/

/-- C1: for a file of size `S > 0` and chunk size `C`, when every
PatchChunk call succeeds on its first attempt the transfer loop issues
exactly `ceil(S/C)` PatchChunk calls, the i-th (0-based) at offset
`i*C` carrying exactly `min(C, S - i*C)` bytes read from the source
file at that offset, and the final offset is `S` (with a nil error). -/
theorem C1_chunk_sequence (content : List Nat) (cfg : Config) (url : String)
    (patchOk : Nat → Nat → Bool) (fileSize : Nat)
    (hS : 0 < fileSize) (hC : 1 ≤ cfg.chunkSize)
    (hlen : content.length = fileSize)
    (hok : ∀ o, patchOk o 0 = true) :
    (uploadFileInChunks content cfg url patchOk 0 fileSize).patches.length
      = ceilDiv fileSize cfg.chunkSize ∧
    (∀ i (hi : i < (uploadFileInChunks content cfg url patchOk 0 fileSize).patches.length),
      (uploadFileInChunks content cfg url patchOk 0 fileSize).patches.get ⟨i, hi⟩
        = (i * cfg.chunkSize,
          (content.drop (i * cfg.chunkSize)).take
            (min cfg.chunkSize (fileSize - i * cfg.chunkSize)))) ∧
    (uploadFileInChunks content cfg url patchOk 0 fileSize).finalOffset = fileSize ∧
    (uploadFileInChunks content cfg url patchOk 0 fileSize).err = none := by
  have master := chunkLoop_allFirstOk content cfg url patchOk 0 fileSize hC hlen hok
    (fileSize - 0) 0 (by omega) (by omega)
  obtain ⟨e1, e2, e3, e4, e5, e6⟩ := master
  have e5' : (uploadFileInChunks content cfg url patchOk 0 fileSize).patches
      = (List.range (ceilDiv fileSize cfg.chunkSize)).map
        (fun i => (i * cfg.chunkSize,
          (content.drop (i * cfg.chunkSize)).take
            (min cfg.chunkSize (fileSize - i * cfg.chunkSize)))) := by
    unfold uploadFileInChunks
    rw [e5, Nat.sub_zero]
    apply List.map_congr_left
    intro i _
    simp
  refine ⟨?_, ?_, ?_, ?_⟩
  · rw [e5', List.length_map, List.length_range]
  · intro i hi
    simp only [e5', List.get_eq_getElem, List.getElem_map, List.getElem_range]
  · exact e2
  · exact e1

/-- C1 witness: 5-byte file, 2-byte chunks, all PATCH calls succeed:
ceil(5/2) = 3 calls and final offset 5. -/
theorem C1_chunk_sequence_witness :
    (uploadFileInChunks [0, 1, 2, 3, 4] ⟨"e", 2, [], false, false, "f"⟩ "u"
      (fun _ _ => true) 0 5).patches.length = 3 ∧
    (uploadFileInChunks [0, 1, 2, 3, 4] ⟨"e", 2, [], false, false, "f"⟩ "u"
      (fun _ _ => true) 0 5).finalOffset = 5 := by
  have h := C1_chunk_sequence [0, 1, 2, 3, 4] ⟨"e", 2, [], false, false, "f"⟩ "u"
    (fun _ _ => true) 5 (by norm_num) (by norm_num) (by decide) (fun _ => rfl)
  exact ⟨h.1.trans (by decide), h.2.2.1⟩

/-- C2: a nil result from the chunk-upload loop is returned only when
the transferred offset has reached the recorded fileSize; every exit
with a smaller offset carries an error.  The hypotheses record what
uploadFile guarantees at the call site: the fileSize argument is the
stat size of the file being read, the chunk size was validated to be
positive, and the resume offset never exceeds the file size. -/
theorem C2_no_partial_success (content : List Nat) (cfg : Config) (url : String)
    (patchOk : Nat → Nat → Bool) (startOffset fileSize : Nat)
    (hC : 1 ≤ cfg.chunkSize) (hlen : content.length = fileSize)
    (hstart : startOffset ≤ fileSize) :
    (uploadFileInChunks content cfg url patchOk startOffset fileSize).err = none →
    (uploadFileInChunks content cfg url patchOk startOffset fileSize).finalOffset
      = fileSize := by
  unfold uploadFileInChunks
  exact chunkLoop_err_none content cfg url patchOk startOffset fileSize hC hlen
    (fileSize - startOffset) startOffset hstart (by omega)

/-- C2 witness: a successful 3-byte upload ends exactly at offset 3. -/
theorem C2_no_partial_success_witness :
    (uploadFileInChunks [1, 2, 3] ⟨"e", 2, [], false, false, "f"⟩ "u"
      (fun _ _ => true) 0 3).finalOffset = 3 :=
  C2_no_partial_success [1, 2, 3] ⟨"e", 2, [], false, false, "f"⟩ "u"
    (fun _ _ => true) 0 3 (by norm_num) (by decide) (by norm_num) (by decide)

/-- C3: when every chunk before offset `B` succeeds on the first
attempt and the chunk at `B` fails all `maxRetries = 5` attempts, the
loop stops at `B` (it does not continue past the failed chunk), its
last saveState call persists a checkpoint whose offset field is exactly
`B` — the last server-confirmed offset — the state is not cleared, and
the loop returns the single chunk-upload error. -/
theorem C3_retry_exhaustion_checkpoint (content : List Nat) (cfg : Config)
    (url : String) (patchOk : Nat → Nat → Bool) (fileSize B : Nat)
    (hC : 1 ≤ cfg.chunkSize) (hlen : content.length = fileSize)
    (hB : B < fileSize) (hdvd : cfg.chunkSize ∣ B)
    (hok : ∀ o, o < B → patchOk o 0 = true)
    (hfail : ∀ i, i < maxRetries → patchOk B i = false) :
    (uploadFileInChunks content cfg url patchOk 0 fileSize).err
      = some "failed to upload chunk" ∧
    (uploadFileInChunks content cfg url patchOk 0 fileSize).finalOffset = B ∧
    (uploadFileInChunks content cfg url patchOk 0 fileSize).saves.getLast?
      = some (mkUploadState url B fileSize cfg) ∧
    (mkUploadState url B fileSize cfg).offset = B ∧
    (uploadFileInChunks content cfg url patchOk 0 fileSize).cleared = false := by
  have hfail5 : ∀ i, i < 5 → patchOk B i = false := fun i hi =>
    hfail i (by simpa [maxRetries] using hi)
  have h := chunkLoop_failAt content cfg url patchOk 0 fileSize B hC hlen hB hok hfail5
    (fileSize - 0) 0 (by omega) (by simpa using hdvd) (by omega)
  exact ⟨h.1, h.2.1, h.2.2.1, rfl, h.2.2.2⟩

/-- C3 witness: 5-byte file, 2-byte chunks, PATCH fails at offset 2 on
every attempt: the run errors out at final offset 2 with the checkpoint
offset 2. -/
theorem C3_retry_exhaustion_checkpoint_witness :
    (uploadFileInChunks [0, 1, 2, 3, 4] ⟨"e", 2, [], false, false, "f"⟩ "u"
      (fun o _ => decide (o < 2)) 0 5).err = some "failed to upload chunk" ∧
    (uploadFileInChunks [0, 1, 2, 3, 4] ⟨"e", 2, [], false, false, "f"⟩ "u"
      (fun o _ => decide (o < 2)) 0 5).finalOffset = 2 ∧
    (uploadFileInChunks [0, 1, 2, 3, 4] ⟨"e", 2, [], false, false, "f"⟩ "u"
      (fun o _ => decide (o < 2)) 0 5).cleared = false := by
  have h := C3_retry_exhaustion_checkpoint [0, 1, 2, 3, 4]
    ⟨"e", 2, [], false, false, "f"⟩ "u" (fun o _ => decide (o < 2)) 5 2
    (by norm_num) (by decide) (by norm_num) (by decide)
    (by decide) (by decide)
  exact ⟨h.1, h.2.1, h.2.2.2.2⟩

/-- C7: for `N` consecutive PatchChunk failures of one chunk
(`1 ≤ N ≤ 5`, followed by a success when `N < 5`), the retry loop
sleeps once after each failed attempt, the sleeps are
`min(2^i, 30)` seconds for `i = 0..N-1`, their total equals
`Σ_{i<N} min(2^i, 30)`, and the total never exceeds `5 × 30`. -/
theorem C7_backoff_schedule (ok : Nat → Bool) (N : Nat)
    (hN1 : 1 ≤ N) (hN5 : N ≤ 5)
    (hfail : ∀ i, i < N → ok i = false)
    (hsucc : N < 5 → ok N = true) :
    (runRetries ok 0 maxRetries).2.2.length = N ∧
    (runRetries ok 0 maxRetries).2.2 = (List.range N).map backoffSeconds ∧
    (runRetries ok 0 maxRetries).2.2.sum = ∑ i in Finset.range N, min (2 ^ i) 30 ∧
    (runRetries ok 0 maxRetries).2.2.sum ≤ 5 * 30 := by
  interval_cases N
  · have e : runRetries ok 0 maxRetries = (true, 2, [1]) := by
      simp [maxRetries, runRetries, backoffSeconds,
        hfail 0 (by norm_num), hsucc (by norm_num)]
    rw [e]
    exact ⟨rfl, by decide, by decide, by decide⟩
  · have e : runRetries ok 0 maxRetries = (true, 3, [1, 2]) := by
      simp [maxRetries, runRetries, backoffSeconds,
        hfail 0 (by norm_num), hfail 1 (by norm_num), hsucc (by norm_num)]
    rw [e]
    exact ⟨rfl, by decide, by decide, by decide⟩
  · have e : runRetries ok 0 maxRetries = (true, 4, [1, 2, 4]) := by
      simp [maxRetries, runRetries, backoffSeconds, hfail 0 (by norm_num),
        hfail 1 (by norm_num), hfail 2 (by norm_num), hsucc (by norm_num)]
    rw [e]
    exact ⟨rfl, by decide, by decide, by decide⟩
  · have e : runRetries ok 0 maxRetries = (true, 5, [1, 2, 4, 8]) := by
      simp [maxRetries, runRetries, backoffSeconds, hfail 0 (by norm_num),
        hfail 1 (by norm_num), hfail 2 (by norm_num), hfail 3 (by norm_num),
        hsucc (by norm_num)]
    rw [e]
    exact ⟨rfl, by decide, by decide, by decide⟩
  · rw [runRetries_allFail (fun i hi => hfail i hi)]
    exact ⟨rfl, by decide, by decide, by decide⟩

/-- C7 witness: two failures then success sleeps 1s then 2s,
totalling `Σ_{i<2} min(2^i, 30) = 3 ≤ 150`. -/
theorem C7_backoff_schedule_witness :
    (runRetries (fun i => decide (2 ≤ i)) 0 maxRetries).2.2.sum
      = ∑ i in Finset.range 2, min (2 ^ i) 30 ∧
    (runRetries (fun i => decide (2 ≤ i)) 0 maxRetries).2.2.length = 2 := by
  have h := C7_backoff_schedule (fun i => decide (2 ≤ i)) 2 (by norm_num)
    (by norm_num) (by decide) (fun _ => by decide)
  exact ⟨h.2.2.1, h.1⟩

/-- C4: when a stored state is loaded whose fileSize and endpoint match
the current request and whose remote URL is nonempty, a failing
QueryOffset makes the engine discard the state and create a fresh
upload from offset 0, persisting a new initial state (rather than
returning an error, provided creation succeeds); a succeeding
QueryOffset makes the server-reported offset replace the stored offset
as the resume point. -/
theorem C4_resume_fallback (cfg : Config) (st : UploadState) (fileSize w : Nat)
    (query : String → Option Nat) (createResult : Option String) (newURL : String)
    (hsize : st.fileSize = fileSize) (hend : st.endpoint = cfg.tusdEndpoint)
    (hurl : st.url ≠ "") :
    (query st.url = none → createResult = some newURL →
      uploadFilePlan cfg fileSize (some st) query createResult
        = Except.ok ⟨newURL, 0, [mkUploadState newURL 0 fileSize cfg]⟩ ∧
      (mkUploadState newURL 0 fileSize cfg).offset = 0) ∧
    (query st.url = some w →
      uploadFilePlan cfg fileSize (some st) query createResult
        = Except.ok ⟨st.url, w, []⟩) := by
  constructor
  · intro hq hcr
    refine ⟨?_, rfl⟩
    unfold uploadFilePlan
    simp [hsize, hend, hq, hcr]
  · intro hq
    unfold uploadFilePlan
    simp [hsize, hend, hq, hurl]

/-- C4 witness: matching stored state whose URL answers offset 4 —
the plan resumes at the server offset 4; the same state with a dead URL
and a successful creation yields a fresh plan at offset 0. -/
theorem C4_resume_fallback_witness :
    uploadFilePlan ⟨"http://e", 1024, [], false, false, "f"⟩ 10
      (some ⟨"http://u/1", 2, 10, "http://e", 1024, [], 0⟩)
      (fun _ => some 4) (some "http://new")
      = Except.ok ⟨"http://u/1", 4, []⟩ ∧
    uploadFilePlan ⟨"http://e", 1024, [], false, false, "f"⟩ 10
      (some ⟨"http://u/1", 2, 10, "http://e", 1024, [], 0⟩)
      (fun _ => none) (some "http://new")
      = Except.ok ⟨"http://new", 0,
          [mkUploadState "http://new" 0 10 ⟨"http://e", 1024, [], false, false, "f"⟩]⟩ := by
  constructor
  · exact (C4_resume_fallback ⟨"http://e", 1024, [], false, false, "f"⟩
      ⟨"http://u/1", 2, 10, "http://e", 1024, [], 0⟩ 10 4 (fun _ => some 4)
      (some "http://new") "http://new" rfl rfl (by decide)).2 rfl
  · exact ((C4_resume_fallback ⟨"http://e", 1024, [], false, false, "f"⟩
      ⟨"http://u/1", 2, 10, "http://e", 1024, [], 0⟩ 10 4 (fun _ => none)
      (some "http://new") "http://new" rfl rfl (by decide)).1 rfl rfl).1

/-- C5 (amended): tier selection for a readable, stat-able file follows
the 50 MiB / 500 MiB boundaries with tags `sha1_` (full), `hybrid_` and
`meta_`; when stat fails the fingerprint is the bare hash of the path
alone, carrying no strategy tag; and since the three tags are pairwise
distinct and a bare hex digest never begins with a tag, fingerprints
produced by different strategies are never equal (the classifier
`strategyOf` separates all four shapes). -/
theorem C5_fingerprint_tiers (md5Hex : String → String) (sha1Hex : List Nat → String)
    (hmd5 : ∀ s, CharsHex (md5Hex s))
    (filePath : String) (sz : Nat) (mt : Int) (c : List Nat) (cc : Option (List Nat)) :
    (sz ≤ 50 * 1024 * 1024 →
      calculateFileHash md5Hex sha1Hex filePath ⟨some ⟨sz, mt⟩, some c⟩
        = "sha1_" ++ sha1Hex c ∧
      strategyOf (calculateFileHash md5Hex sha1Hex filePath ⟨some ⟨sz, mt⟩, some c⟩)
        = "full") ∧
    (50 * 1024 * 1024 < sz → sz ≤ 500 * 1024 * 1024 →
      calculateFileHash md5Hex sha1Hex filePath ⟨some ⟨sz, mt⟩, some c⟩
        = "hybrid_" ++ md5Hex (sha1Hex (c.take (1024 * 1024)) ++ "_" ++
            toString sz ++ "_" ++ toString mt) ∧
      strategyOf (calculateFileHash md5Hex sha1Hex filePath ⟨some ⟨sz, mt⟩, some c⟩)
        = "hybrid") ∧
    (500 * 1024 * 1024 < sz →
      calculateFileHash md5Hex sha1Hex filePath ⟨some ⟨sz, mt⟩, some c⟩
        = "meta_" ++ md5Hex (filePath ++ "|" ++ toString sz ++ "|" ++ toString mt) ∧
      strategyOf (calculateFileHash md5Hex sha1Hex filePath ⟨some ⟨sz, mt⟩, some c⟩)
        = "meta") ∧
    (calculateFileHash md5Hex sha1Hex filePath ⟨none, cc⟩ = md5Hex filePath ∧
      strategyOf (calculateFileHash md5Hex sha1Hex filePath ⟨none, cc⟩) = "path") ∧
    (∀ s t : String, strategyOf s ≠ strategyOf t → s ≠ t) := by
  refine ⟨?_, ?_, ?_, ?_, ?_⟩
  · intro h1
    have e : calculateFileHash md5Hex sha1Hex filePath ⟨some ⟨sz, mt⟩, some c⟩
        = "sha1_" ++ sha1Hex c := by
      unfold calculateFileHash
      simp [h1]
    exact ⟨e, by rw [e]; exact strategyOf_full _⟩
  · intro h1 h2
    have e : calculateFileHash md5Hex sha1Hex filePath ⟨some ⟨sz, mt⟩, some c⟩
        = "hybrid_" ++ md5Hex (sha1Hex (c.take (1024 * 1024)) ++ "_" ++
            toString sz ++ "_" ++ toString mt) := by
      have hn1 : ¬ (sz ≤ 50 * 1024 * 1024) := by omega
      simp [calculateFileHash, hybridTier, hn1, h2]
    exact ⟨e, by rw [e]; exact strategyOf_hybrid _⟩
  · intro h1
    have e : calculateFileHash md5Hex sha1Hex filePath ⟨some ⟨sz, mt⟩, some c⟩
        = "meta_" ++ md5Hex (filePath ++ "|" ++ toString sz ++ "|" ++ toString mt) := by
      have hn1 : ¬ (sz ≤ 50 * 1024 * 1024) := by omega
      have hn2 : ¬ (sz ≤ 500 * 1024 * 1024) := by omega
      simp [calculateFileHash, metaTier, hn1, hn2]
    exact ⟨e, by rw [e]; exact strategyOf_meta _⟩
  · exact ⟨rfl, strategyOf_hexOnly _ (hmd5 filePath)⟩
  · intro s t h heq
    exact h (by rw [heq])

/-- C5 counterexample to the claim as stated: when stat fails the
fingerprint is the bare path digest with no tag at all — it contains no
underscore, so it is not of the form `path_<digest>` (nor tagged in any
other way), contradicting "a hash of the path alone tagged path". -/
theorem C5_path_untagged_counterexample :
    calculateFileHash md5HexModel sha1HexModel "a.bin" ⟨none, none⟩
      = md5HexModel "a.bin" ∧
    (calculateFileHash md5HexModel sha1HexModel "a.bin" ⟨none, none⟩).data.contains '_'
      = false := by
  exact ⟨rfl, by decide⟩

/-- C5 witness: a readable 100-byte file is fingerprinted with the
full-content tier and the `sha1_` tag. -/
theorem C5_fingerprint_tiers_witness :
    calculateFileHash md5HexModel sha1HexModel "f.bin" ⟨some ⟨100, 0⟩, some [1, 2, 3]⟩
      = "sha1_" ++ sha1HexModel [1, 2, 3] ∧
    strategyOf (calculateFileHash md5HexModel sha1HexModel "f.bin"
      ⟨some ⟨100, 0⟩, some [1, 2, 3]⟩) = "full" :=
  (C5_fingerprint_tiers md5HexModel sha1HexModel md5HexModel_hex "f.bin" 100 0
    [1, 2, 3] none).1 (by norm_num)

/-- C6: after the transfer loop completes (all chunks accepted), the
loop reports success, ends at offset `fileSize`, runs clearState, and a
server replaying the PATCH stream holds exactly `fileSize` bytes; and
clearState removes the caller-owned record together with every record
matching the fingerprint or legacy pattern that is more than an hour
old, leaving every other record in place. -/
theorem C6_completion_clears_state (content : List Nat) (cfg : Config) (url : String)
    (patchOk : Nat → Nat → Bool) (fileSize : Nat)
    (dir : List StoredFile) (ownName baseHash legacyHash : String) (now : Int)
    (hC : 1 ≤ cfg.chunkSize) (hlen : content.length = fileSize)
    (hok : ∀ o, patchOk o 0 = true) :
    (uploadFileInChunks content cfg url patchOk 0 fileSize).err = none ∧
    (uploadFileInChunks content cfg url patchOk 0 fileSize).finalOffset = fileSize ∧
    (uploadFileInChunks content cfg url patchOk 0 fileSize).cleared = true ∧
    serverReplay 0 (uploadFileInChunks content cfg url patchOk 0 fileSize).patches
      = fileSize ∧
    (∀ f ∈ clearState dir ownName baseHash legacyHash now, f.name ≠ ownName) ∧
    (∀ f ∈ clearState dir ownName baseHash legacyHash now,
      f ∈ dir ∧ ¬((stateMatches baseHash f.name || stateMatches legacyHash f.name) = true ∧
        now - f.modTime > 3600)) ∧
    (∀ f ∈ dir, f.name ≠ ownName →
      ¬((stateMatches baseHash f.name || stateMatches legacyHash f.name) = true ∧
        now - f.modTime > 3600) →
      f ∈ clearState dir ownName baseHash legacyHash now) := by
  have master := chunkLoop_allFirstOk content cfg url patchOk 0 fileSize hC hlen hok
    (fileSize - 0) 0 (by omega) (by omega)
  obtain ⟨e1, e2, e3, _, _, e6⟩ := master
  have spec := clearState_spec dir ownName baseHash legacyHash now
  exact ⟨e1, e2, e3, e6,
    fun f hf => ((spec.1 f hf).2.1),
    fun f hf => ⟨(spec.1 f hf).1, (spec.1 f hf).2.2⟩,
    spec.2⟩

/-- C6 witness: a completed 2-byte upload reports success at offset 2
and the caller-owned record does not survive clearState. -/
theorem C6_completion_clears_state_witness :
    (uploadFileInChunks [1, 2] ⟨"e", 1, [], false, false, "f"⟩ "u"
      (fun _ _ => true) 0 2).err = none ∧
    (∀ f ∈ clearState [⟨"own.json", 0⟩] "own.json" "h" "g" 10000,
      f.name ≠ "own.json") := by
  have h := C6_completion_clears_state [1, 2] ⟨"e", 1, [], false, false, "f"⟩ "u"
    (fun _ _ => true) 2 [⟨"own.json", 0⟩] "own.json" "h" "g" 10000
    (by norm_num) (by decide) (fun _ => rfl)
  exact ⟨h.1, h.2.2.2.2.1⟩

/-- C8 (amended): the three protocol operations set the
protocol-mandated headers first and then apply the caller-supplied
headers with replace semantics, so the sent request carries the
protocol-computed values whenever the caller map contains none of the
protocol-mandated names; a caller entry with one of those names,
however, does override the protocol value (see the counterexample). -/
theorem C8_protocol_headers (fileSize : Nat) (filename : String) (data : List Nat)
    (offset : Nat) (user : List (String × String))
    (huser : ∀ p ∈ user,
      p.1 ∉ (["Tus-Resumable", "Content-Length", "Upload-Length", "Upload-Metadata",
        "Content-Type", "Upload-Offset"] : List String)) :
    getHeader (createUploadRequestHeaders fileSize filename user) "Tus-Resumable"
      = some "1.0.0" ∧
    getHeader (createUploadRequestHeaders fileSize filename user) "Content-Length"
      = some "0" ∧
    getHeader (createUploadRequestHeaders fileSize filename user) "Upload-Length"
      = some (toString fileSize) ∧
    getHeader (createUploadRequestHeaders fileSize filename user) "Upload-Metadata"
      = some ("name " ++ encodeBase64 filename) ∧
    getHeader (getUploadOffsetRequestHeaders user) "Tus-Resumable" = some "1.0.0" ∧
    getHeader (uploadChunkRequestHeaders data offset user) "Tus-Resumable"
      = some "1.0.0" ∧
    getHeader (uploadChunkRequestHeaders data offset user) "Content-Type"
      = some "application/offset+octet-stream" ∧
    getHeader (uploadChunkRequestHeaders data offset user) "Content-Length"
      = some (toString data.length) ∧
    getHeader (uploadChunkRequestHeaders data offset user) "Upload-Offset"
      = some (toString offset) := by
  have hk : ∀ k : String,
      k ∈ (["Tus-Resumable", "Content-Length", "Upload-Length", "Upload-Metadata",
        "Content-Type", "Upload-Offset"] : List String) →
      ∀ p ∈ user, p.1 ≠ k := by
    intro k hkmem p hp heq
    exact huser p hp (heq ▸ hkmem)
  refine ⟨?_, ?_, ?_, ?_, ?_, ?_, ?_, ?_, ?_⟩
  · unfold createUploadRequestHeaders
    rw [getHeader_applyHeaders user _ _ (hk _ (by decide))]
    rfl
  · unfold createUploadRequestHeaders
    rw [getHeader_applyHeaders user _ _ (hk _ (by decide))]
    rfl
  · unfold createUploadRequestHeaders
    rw [getHeader_applyHeaders user _ _ (hk _ (by decide))]
    rfl
  · unfold createUploadRequestHeaders
    rw [getHeader_applyHeaders user _ _ (hk _ (by decide))]
    rfl
  · unfold getUploadOffsetRequestHeaders
    rw [getHeader_applyHeaders user _ _ (hk _ (by decide))]
    rfl
  · unfold uploadChunkRequestHeaders
    rw [getHeader_applyHeaders user _ _ (hk _ (by decide))]
    rfl
  · unfold uploadChunkRequestHeaders
    rw [getHeader_applyHeaders user _ _ (hk _ (by decide))]
    rfl
  · unfold uploadChunkRequestHeaders
    rw [getHeader_applyHeaders user _ _ (hk _ (by decide))]
    rfl
  · unfold uploadChunkRequestHeaders
    rw [getHeader_applyHeaders user _ _ (hk _ (by decide))]
    rfl

/-- C8 counterexample to the claim as stated: the caller-supplied
headers are applied after the protocol headers with Set (replace)
semantics, so a caller entry named `Tus-Resumable` replaces the
protocol-computed value `1.0.0` in the request actually sent. -/
theorem C8_override_counterexample :
    getHeader (createUploadRequestHeaders 16 "a" [("Tus-Resumable", "2.0.0")])
      "Tus-Resumable" = some "2.0.0" ∧
    (some "2.0.0" : Option String) ≠ some "1.0.0" := by
  exact ⟨rfl, by decide⟩

/-- C8 witness: with a disjoint caller header (an auth header) the
create request carries the protocol version and length values. -/
theorem C8_protocol_headers_witness :
    getHeader (createUploadRequestHeaders 5 "f" [("Authorization", "Bearer t")])
      "Tus-Resumable" = some "1.0.0" ∧
    getHeader (createUploadRequestHeaders 5 "f" [("Authorization", "Bearer t")])
      "Upload-Length" = some "5" := by
  have h := C8_protocol_headers 5 "f" [] 0 [("Authorization", "Bearer t")] (by decide)
  exact ⟨h.1, h.2.2.1⟩

/-- C9 (divergence exhibited at the failing input): a state record of
another, genuinely alive process (ground-truth liveness is constantly
true), modified 100 seconds ago — well within the 5-minute activity
window.  The claim says it must be classified active (count 1) and
kept; the code's liveness probe returns false for every pid because it
passes a nil os.Signal, so the record is counted inactive, deleted, and
no warning is raised. -/
theorem C9_live_record_misclassified :
    isProcessRunning (fun _ => true) 99 = false ∧
    checkConcurrentUploads "aaaa" (fun _ => true)
      [⟨".tusc_state_aaaa_99.json", 900⟩] 1 1000 = ([], 0) ∧
    concurrentWarning (checkConcurrentUploads "aaaa" (fun _ => true)
      [⟨".tusc_state_aaaa_99.json", 900⟩] 1 1000).2 = none := by
  exact ⟨rfl, by decide, by decide⟩

/-- C10: the liveness probe passes a nil os.Signal to Process.Signal,
which fails on every platform, so isProcessRunning returns false for
every pid; consequently checkConcurrentUploads never counts any other
upload as active (and thus never warns), and it deletes every other
process's record that matches the glob, parses to a foreign pid, and
was modified within the 5-minute window — even when the owning process
is alive. -/
theorem C10_liveness_probe_always_false :
    (∀ (alive : Int → Bool) (pid : Int), isProcessRunning alive pid = false) ∧
    (∀ (legacyHash : String) (alive : Int → Bool) (dir : List StoredFile)
      (currentPid : Int) (now : Int),
      (checkConcurrentUploads legacyHash alive dir currentPid now).2 = 0 ∧
      concurrentWarning
        (checkConcurrentUploads legacyHash alive dir currentPid now).2 = none) ∧
    (∀ (legacyHash : String) (alive : Int → Bool) (dir : List StoredFile)
      (currentPid : Int) (now : Int) (f : StoredFile) (pid : Int),
      f ∈ dir → stateMatches legacyHash f.name = true →
      extractPid f.name = some pid → pid ≠ currentPid → now - f.modTime < 300 →
      f ∉ (checkConcurrentUploads legacyHash alive dir currentPid now).1) := by
  refine ⟨isProcessRunning_false, ?_, ?_⟩
  · intro legacyHash alive dir currentPid now
    rw [checkConcurrentUploads_eq]
    exact ⟨rfl, rfl⟩
  · intro legacyHash alive dir currentPid now f pid hmem hmatch hpid hne hrecent habs
    rw [checkConcurrentUploads_eq] at habs
    have hkept := (List.mem_filter.mp habs).2
    unfold keptByCheck at hkept
    rw [if_pos hmatch, hpid] at hkept
    simp [hne, hrecent] at hkept

/-- C10 witness: a record of a genuinely alive foreign process inside
the activity window is deleted and not counted. -/
theorem C10_liveness_probe_always_false_witness :
    isProcessRunning (fun _ => true) 7 = false ∧
    (checkConcurrentUploads "bbbb" (fun _ => true)
      [⟨".tusc_state_bbbb_7.json", 950⟩] 1 1000).2 = 0 ∧
    (⟨".tusc_state_bbbb_7.json", 950⟩ : StoredFile) ∉
      (checkConcurrentUploads "bbbb" (fun _ => true)
        [⟨".tusc_state_bbbb_7.json", 950⟩] 1 1000).1 := by
  refine ⟨C10_liveness_probe_always_false.1 (fun _ => true) 7,
    (C10_liveness_probe_always_false.2.1 "bbbb" (fun _ => true)
      [⟨".tusc_state_bbbb_7.json", 950⟩] 1 1000).1,
    C10_liveness_probe_always_false.2.2 "bbbb" (fun _ => true)
      [⟨".tusc_state_bbbb_7.json", 950⟩] 1 1000 ⟨".tusc_state_bbbb_7.json", 950⟩ 7
      (by decide) (by decide) (by decide) (by decide) (by decide)⟩

end TusClient
